import Mathlib

/-!
Verification of the `EntropyPool` class of `dev_random.py` (repository
`jimmy-yu/dev_random`), a simplified software emulation of the Linux kernel
entropy pool.  The Python class is shallowly embedded below: the mutable
object becomes a structure that every operation takes and returns, Python
big integers become `Nat` (pool content, which is always non-negative) and
`Int` (stir inputs and the entropy counter, which the source can drive
negative), and exceptions become explicit `Option Err` / `Except Err`
results.  The wall clock read by `add_entropy_from_time_interval` is the
one external input; it enters the model as an explicit integer parameter.
-/

/-- The two exception kinds raised by the source: `NotEnoughEntropyError`
(raised by `debit_entropy`) and the `TypeError` raised by `add_entropy`
for values that are neither strings nor coercible to `int`. -/
inductive Err where
  | notEnoughEntropy
  | typeError
deriving DecidableEq, Repr

/-- A value passed to `add_entropy`.  `str` is a Python text string;
`bytes` is a Python 2 byte string (the hash digests fed back by
`extract_from_pool` are of this kind, a list of byte values); `int` is an
integer; `other v` is any other value, where `v` is `some i` when Python's
`int()` coercion succeeds with result `i` and `none` when it fails. -/
inductive PyVal where
  | str (s : String)
  | bytes (bs : List Nat)
  | int (i : Int)
  | other (coerced : Option Int)

/-- Input to `get_hash`: the source passes either the integer pool content
or (in the tests) a text string. -/
inductive HashInput where
  | int (i : Int)
  | str (s : String)

/-- State of one `EntropyPool` object.  `bit_mask` is not a field: the
source computes it once in `__init__` as `(1 << nbits) - 1` and `nbits`
never changes, so the model writes `2 ^ nbits - 1` wherever the source
reads `self.bit_mask`.  `last_request_t` is likewise omitted: it only
feeds the wall-clock interval, which the model takes as a parameter.
`hash_func` maps the hashed text to its digest bytes. -/
structure EntropyPool where
  entropy_count : Int
  nbits : Nat
  content : Nat
  stir_taps : List Nat
  stir_ror_by : Nat
  hash_func : String → List Nat

namespace EntropyPool

/-- `ror(val, r_bits, max_bits)` from the source:
`((val & (2 ** max_bits - 1)) >> r_bits % max_bits) |
 (val << (max_bits - (r_bits % max_bits)) & (2 ** max_bits - 1))`. -/
def ror (val r_bits max_bits : Nat) : Nat :=
  ((val &&& (2 ^ max_bits - 1)) >>> (r_bits % max_bits)) |||
    ((val <<< (max_bits - r_bits % max_bits)) &&& (2 ^ max_bits - 1))

/-- `rol(val, r_bits, max_bits)` from the source:
`(val << r_bits % max_bits) & (2 ** max_bits - 1) |
 ((val & (2 ** max_bits - 1)) >> (max_bits - (r_bits % max_bits)))`. -/
def rol (val r_bits max_bits : Nat) : Nat :=
  ((val <<< (r_bits % max_bits)) &&& (2 ^ max_bits - 1)) |||
    ((val &&& (2 ^ max_bits - 1)) >>> (max_bits - r_bits % max_bits))

/-- One XOR tap of `stir`: `(input_ ** tap) & self.bit_mask`.  Python's
`&` of an arbitrary integer with the all-ones mask `2 ^ nbits - 1` is
exactly reduction modulo `2 ^ nbits` (also for negative integers), which
`Int.emod` computes with a non-negative result. -/
def tapContrib (input : Int) (tap : Nat) (nbits : Nat) : Nat :=
  ((input ^ tap) % ((2 : Int) ^ nbits)).toNat

/-- `stir(self, input_)`: rotate `content` right by `stir_ror_by` within
the `nbits`-wide field, then XOR in `(input_ ** tap) & bit_mask` for each
tap in order. -/
def stir (p : EntropyPool) (input : Int) : EntropyPool :=
  { p with
    content :=
      p.stir_taps.foldl (fun acc tap => acc ^^^ tapContrib input tap p.nbits)
        (ror p.content p.stir_ror_by p.nbits) }

/-- `credit_entropy(self)`: increment the counter by one. -/
def credit_entropy (p : EntropyPool) : EntropyPool :=
  { p with entropy_count := p.entropy_count + 1 }

/-- `debit_entropy(self)`: decrement the counter by one, then raise
`NotEnoughEntropyError` if the result is negative.  The decrement happens
before the check, so the returned pool carries the decremented counter
even on failure, exactly as the Python object does. -/
def debit_entropy (p : EntropyPool) : EntropyPool × Option Err :=
  let q : EntropyPool := { p with entropy_count := p.entropy_count - 1 }
  (q, if q.entropy_count < 0 then some Err.notEnoughEntropy else none)

/-- `convert_str_to_int(a_string)`: the sum of the numeric code points of
the characters of the string. -/
def convert_str_to_int (a_string : String) : Nat :=
  (a_string.data.map Char.toNat).sum

/-- `add_entropy(self, input_, credit_entropy=True)`: strings (and Python 2
byte strings, whose characters are byte values) are converted by
`convert_str_to_int`; other non-integers are coerced with `int()`, and a
failed coercion raises before the pool is touched; then the pool is
stirred and, when requested, credited. -/
def add_entropy (p : EntropyPool) (input : PyVal) (credit : Bool) :
    EntropyPool × Option Err :=
  match input with
  | PyVal.str s =>
      let q := p.stir (convert_str_to_int s : Int)
      (if credit then q.credit_entropy else q, none)
  | PyVal.bytes bs =>
      let q := p.stir (bs.sum : Int)
      (if credit then q.credit_entropy else q, none)
  | PyVal.int i =>
      let q := p.stir i
      (if credit then q.credit_entropy else q, none)
  | PyVal.other (some i) =>
      let q := p.stir i
      (if credit then q.credit_entropy else q, none)
  | PyVal.other none => (p, some Err.typeError)

/-- `add_entropy_from_time_interval(self)`: the measured wall-clock
interval, in whole microseconds, enters the model as the parameter `t`;
it is fed through `add_entropy` with credit. -/
def add_entropy_from_time_interval (p : EntropyPool) (t : Int) : EntropyPool :=
  (p.add_entropy (PyVal.int t) true).1

/-- `__init__`: zero counter and content, record the configuration, then
perform one timing-based credited stir (interval `t`). -/
def mkPool (nbits : Nat) (hash_func : String → List Nat) (stir_taps : List Nat)
    (stir_ror_by : Nat) (t : Int) : EntropyPool :=
  ({ entropy_count := 0, nbits := nbits, content := 0, stir_taps := stir_taps,
     stir_ror_by := stir_ror_by, hash_func := hash_func } : EntropyPool).add_entropy_from_time_interval t

/-- The most significant binary digits of `n`, as characters, most
significant first; empty for `n = 0`.  This models the digit part of
Python's `bin` builtin. -/
def natBinDigits (n : Nat) : List Char :=
  if h : n = 0 then []
  else natBinDigits (n / 2) ++ [if n % 2 = 1 then '1' else '0']
termination_by n
decreasing_by exact Nat.div_lt_self (Nat.pos_of_ne_zero h) Nat.one_lt_two

/-- Python's `bin` builtin: `bin(0) = "0b0"`, `bin(5) = "0b101"`,
`bin(-5) = "-0b101"`; a literal `0b` radix marker followed by the binary
digits with no leading zeros. -/
def pyBin (i : Int) : String :=
  if i < 0 then "-0b" ++ String.mk (natBinDigits i.natAbs)
  else if i = 0 then "0b0"
  else "0b" ++ String.mk (natBinDigits i.natAbs)

/-- `get_hash(self, to_hash)`: integers are rendered with `bin` first;
strings are hashed as they are.  Returns the digest bytes of the
configured hash function. -/
def get_hash (p : EntropyPool) (to_hash : HashInput) : List Nat :=
  match to_hash with
  | HashInput.int i => p.hash_func (pyBin i)
  | HashInput.str s => p.hash_func s

/-- `extract_from_pool(self)`: hash the content, stir the digest back in
without credit, return the digest. -/
def extract_from_pool (p : EntropyPool) : List Nat × EntropyPool :=
  let result := p.get_hash (HashInput.int (p.content : Int))
  (result, (p.add_entropy (PyVal.bytes result) false).1)

/-- The `while byte_count < nbytes` loop of `get_random_bytes`, with an
explicit fuel so the model is total; `nbytes` units of fuel are enough
whenever every digest is non-empty, since each iteration then collects at
least one byte. -/
def gather (fuel : Nat) (p : EntropyPool) (nbytes byte_count : Nat)
    (result : List Nat) : List Nat × EntropyPool :=
  match fuel with
  | 0 => (result, p)
  | fuel' + 1 =>
      if byte_count < nbytes then
        let e := p.extract_from_pool
        let new_count := e.1.length
        if byte_count + new_count ≤ nbytes then
          gather fuel' e.2 nbytes (byte_count + new_count) (result ++ e.1)
        else
          (result ++ e.1.take (nbytes - byte_count), e.2)
      else (result, p)

/-- `get_random_bytes(self, nbytes)`: debit once, then collect digest
blocks until exactly `nbytes` bytes are accumulated, truncating the final
block. -/
def get_random_bytes (p : EntropyPool) (nbytes : Nat) :
    EntropyPool × Except Err (List Nat) :=
  let d := p.debit_entropy
  match d.2 with
  | some e => (d.1, Except.error e)
  | none =>
      let r := gather nbytes d.1 nbytes 0 []
      (r.2, Except.ok r.1)

end EntropyPool

/-- One call of the public interface, used to quantify over arbitrary call
sequences.  Interval and input values are parameters of the operation. -/
inductive PoolOp where
  | stir (i : Int)
  | add_entropy (v : PyVal) (credit : Bool)
  | add_entropy_from_time_interval (t : Int)
  | extract_from_pool
  | get_random_bytes (n : Nat)
  | credit_entropy
  | debit_entropy

/-- The pool state after one operation (outputs and exceptions discarded;
a failing `add_entropy` leaves the pool unchanged and a failing
`debit_entropy` leaves the decremented counter, as in the source). -/
def runOp (p : EntropyPool) : PoolOp → EntropyPool
  | PoolOp.stir i => p.stir i
  | PoolOp.add_entropy v c => (p.add_entropy v c).1
  | PoolOp.add_entropy_from_time_interval t => p.add_entropy_from_time_interval t
  | PoolOp.extract_from_pool => p.extract_from_pool.2
  | PoolOp.get_random_bytes n => (p.get_random_bytes n).1
  | PoolOp.credit_entropy => p.credit_entropy
  | PoolOp.debit_entropy => p.debit_entropy.1

/-- The pool state after a sequence of operations. -/
def runOps (p : EntropyPool) (ops : List PoolOp) : EntropyPool :=
  ops.foldl runOp p

/-- The numeric value of a list of binary digit characters, most
significant first. -/
def bitsVal (l : List Char) : Nat :=
  l.foldl (fun a c => 2 * a + (if c = '1' then 1 else 0)) 0

namespace EntropyPool

theorem ror_testBit (val r m i : Nat) (hm : 0 < m) (hi : i < m) :
    (ror val r m).testBit i = val.testBit ((i + r % m) % m) := by
  have hs : r % m < m := Nat.mod_lt _ hm
  unfold ror
  rcases Nat.lt_or_ge (i + r % m) m with h | h
  · rw [Nat.mod_eq_of_lt h]
    simp only [Nat.testBit_or, Nat.testBit_shiftRight, Nat.testBit_and,
      Nat.testBit_two_pow_sub_one, Nat.testBit_shiftLeft]
    have h1 : r % m + i < m := by omega
    have h2 : ¬ (m - r % m ≤ i) := by omega
    simp [h1, h2, h, Nat.add_comm]
  · have hmod : (i + r % m) % m = i + r % m - m := by
      rw [Nat.mod_eq_sub_mod h, Nat.mod_eq_of_lt (by omega)]
    rw [hmod]
    simp only [Nat.testBit_or, Nat.testBit_shiftRight, Nat.testBit_and,
      Nat.testBit_two_pow_sub_one, Nat.testBit_shiftLeft]
    have h1 : ¬ (r % m + i < m) := by omega
    have h2 : m - r % m ≤ i := by omega
    have h3 : i - (m - r % m) = i + r % m - m := by omega
    simp [h1, h2, hi, h3]

theorem rol_testBit (val r m i : Nat) (hm : 0 < m) (hi : i < m) :
    (rol val r m).testBit i = val.testBit ((i + (m - r % m)) % m) := by
  have hs : r % m < m := Nat.mod_lt _ hm
  unfold rol
  rcases Nat.lt_or_ge i (r % m) with h | h
  · have hmod : (i + (m - r % m)) % m = i + (m - r % m) := Nat.mod_eq_of_lt (by omega)
    rw [hmod]
    simp only [Nat.testBit_or, Nat.testBit_shiftLeft, Nat.testBit_and,
      Nat.testBit_two_pow_sub_one, Nat.testBit_shiftRight]
    have h1 : ¬ (r % m ≤ i) := by omega
    have h2 : m - r % m + i < m := by omega
    have h3 : m - r % m + i = i + (m - r % m) := by omega
    have h4 : i + (m - r % m) < m := by omega
    simp [h1, h2, h3, h4]
  · have hmod : (i + (m - r % m)) % m = i - r % m := by
      have e1 : (i + (m - r % m)) % m = (i + (m - r % m) - m) % m :=
        Nat.mod_eq_sub_mod (by omega)
      have e2 : i + (m - r % m) - m = i - r % m := by omega
      rw [e1, e2, Nat.mod_eq_of_lt (by omega)]
    rw [hmod]
    simp only [Nat.testBit_or, Nat.testBit_shiftLeft, Nat.testBit_and,
      Nat.testBit_two_pow_sub_one, Nat.testBit_shiftRight]
    have h2 : ¬ (m - r % m + i < m) := by omega
    simp [h, h2, hi]

theorem shiftRight_le_self (x k : Nat) : x >>> k ≤ x := by
  rw [Nat.shiftRight_eq_div_pow]
  exact Nat.div_le_self _ _

theorem ror_lt (val r m : Nat) (hm : 0 < m) : ror val r m < 2 ^ m := by
  have hmask : 2 ^ m - 1 < 2 ^ m := by
    have := Nat.two_pow_pos m; omega
  exact Nat.or_lt_two_pow
    (lt_of_le_of_lt (shiftRight_le_self _ _) (Nat.and_lt_two_pow val hmask))
    (Nat.and_lt_two_pow _ hmask)

theorem rol_lt (val r m : Nat) (hm : 0 < m) : rol val r m < 2 ^ m := by
  have hmask : 2 ^ m - 1 < 2 ^ m := by
    have := Nat.two_pow_pos m; omega
  exact Nat.or_lt_two_pow
    (Nat.and_lt_two_pow _ hmask)
    (lt_of_le_of_lt (shiftRight_le_self _ _) (Nat.and_lt_two_pow val hmask))

end EntropyPool

/-- C6: for every non-negative `val`, rotation amount `r` and positive
field width, `rol` undoes `ror`, yielding `val` reduced modulo the field;
both rotations reduce the amount modulo the width, and amount `0` is the
identity on the masked value. -/
theorem C6_rotation_round_trip (val r max_bits : Nat) (h : 0 < max_bits) :
    EntropyPool.rol (EntropyPool.ror val r max_bits) r max_bits = val % 2 ^ max_bits ∧
    EntropyPool.ror val 0 max_bits = val % 2 ^ max_bits ∧
    EntropyPool.rol val 0 max_bits = val % 2 ^ max_bits ∧
    EntropyPool.ror val r max_bits = EntropyPool.ror val (r % max_bits) max_bits ∧
    EntropyPool.rol val r max_bits = EntropyPool.rol val (r % max_bits) max_bits := by
  refine ⟨?_, ?_, ?_, ?_, ?_⟩
  · apply Nat.eq_of_testBit_eq
    intro i
    rcases Nat.lt_or_ge i max_bits with hi | hi
    · have hs : r % max_bits < max_bits := Nat.mod_lt _ h
      rw [EntropyPool.rol_testBit _ _ _ _ h hi]
      have hj : (i + (max_bits - r % max_bits)) % max_bits < max_bits := Nat.mod_lt _ h
      rw [EntropyPool.ror_testBit _ _ _ _ h hj]
      rw [Nat.mod_add_mod, Nat.testBit_mod_two_pow]
      have he : i + (max_bits - r % max_bits) + r % max_bits = i + max_bits := by omega
      rw [he, Nat.add_mod_right, Nat.mod_eq_of_lt hi]
      simp [hi]
    · have h1 : EntropyPool.rol (EntropyPool.ror val r max_bits) r max_bits < 2 ^ i :=
        lt_of_lt_of_le (EntropyPool.rol_lt _ _ _ h) (Nat.pow_le_pow_right (by omega) hi)
      have h2 : val % 2 ^ max_bits < 2 ^ i :=
        lt_of_lt_of_le (Nat.mod_lt _ (Nat.two_pow_pos _)) (Nat.pow_le_pow_right (by omega) hi)
      rw [Nat.testBit_lt_two_pow h1, Nat.testBit_lt_two_pow h2]
  · unfold EntropyPool.ror
    rw [Nat.zero_mod, Nat.sub_zero]
    simp [Nat.and_pow_two_sub_one_eq_mod, Nat.shiftLeft_eq, Nat.mul_mod_left]
  · unfold EntropyPool.rol
    rw [Nat.zero_mod, Nat.sub_zero]
    simp [Nat.and_pow_two_sub_one_eq_mod, Nat.shiftRight_eq_div_pow,
      Nat.div_eq_of_lt (Nat.mod_lt _ (Nat.two_pow_pos _))]
  · unfold EntropyPool.ror
    rw [Nat.mod_eq_of_lt (Nat.mod_lt r h)]
  · unfold EntropyPool.rol
    rw [Nat.mod_eq_of_lt (Nat.mod_lt r h)]

/-- Concrete instance of C6 at `val = 9`, `r = 1`, `max_bits = 4`. -/
theorem C6_rotation_round_trip_witness :
    0 < 4 ∧
    (EntropyPool.rol (EntropyPool.ror 9 1 4) 1 4 = 9 % 2 ^ 4 ∧
     EntropyPool.ror 9 0 4 = 9 % 2 ^ 4 ∧
     EntropyPool.rol 9 0 4 = 9 % 2 ^ 4 ∧
     EntropyPool.ror 9 1 4 = EntropyPool.ror 9 (1 % 4) 4 ∧
     EntropyPool.rol 9 1 4 = EntropyPool.rol 9 (1 % 4) 4) :=
  ⟨by decide, C6_rotation_round_trip 9 1 4 (by decide)⟩

/-- C5: the reference stir vector: a 16-bit pool with rotation 3 and taps
`[4,2,0]`, content `0b1111`, stirred with input `2`, yields content
`0b1110000000010100`. -/
theorem C5_stir_reference_vector :
    (({ entropy_count := 1, nbits := 16, content := 0b1111, stir_taps := [4, 2, 0],
        stir_ror_by := 3, hash_func := fun _ => [] } : EntropyPool).stir 2).content
      = 0b1110000000010100 := by decide

theorem foldl_xor_perm (f : Nat → Nat) {l₁ l₂ : List Nat} (h : l₁.Perm l₂) :
    ∀ a : Nat, l₁.foldl (fun acc t => acc ^^^ f t) a
      = l₂.foldl (fun acc t => acc ^^^ f t) a := by
  induction h with
  | nil => intro a; rfl
  | cons x h ih => intro a; simp only [List.foldl_cons]; exact ih _
  | swap x y l =>
      intro a
      simp only [List.foldl_cons]
      rw [Nat.xor_assoc, Nat.xor_comm (f y) (f x), ← Nat.xor_assoc]
  | trans h₁ h₂ ih₁ ih₂ => intro a; rw [ih₁ a, ih₂ a]

/-- C9: stirring with any permutation of the tap list gives the same final
content, because the single rotation happens before all the taps and the
XOR contributions commute. -/
theorem C9_tap_order_independence (p : EntropyPool) (input : Int) (l : List Nat)
    (h : p.stir_taps.Perm l) :
    (p.stir input).content = (({ p with stir_taps := l } : EntropyPool).stir input).content := by
  have hfold := foldl_xor_perm (fun t => EntropyPool.tapContrib input t p.nbits) h
    (EntropyPool.ror p.content p.stir_ror_by p.nbits)
  simpa [EntropyPool.stir] using hfold

/-- Concrete instance of C9: taps `[4,2,0]` against the permutation
`[0,4,2]`. -/
theorem C9_tap_order_independence_witness :
    (([4, 2, 0] : List Nat).Perm [0, 4, 2]) ∧
    ((({ entropy_count := 1, nbits := 16, content := 0b1111, stir_taps := [4, 2, 0],
         stir_ror_by := 3, hash_func := fun _ => [] } : EntropyPool).stir 2).content
      = (({ entropy_count := 1, nbits := 16, content := 0b1111, stir_taps := [0, 4, 2],
            stir_ror_by := 3, hash_func := fun _ => [] } : EntropyPool).stir 2).content) :=
  ⟨by decide,
   C9_tap_order_independence
     ({ entropy_count := 1, nbits := 16, content := 0b1111, stir_taps := [4, 2, 0],
        stir_ror_by := 3, hash_func := fun _ => [] } : EntropyPool) 2 [0, 4, 2] (by decide)⟩

namespace EntropyPool

theorem stir_shape (p : EntropyPool) (i : Int) :
    p.stir i = { p with content := (p.stir i).content } := rfl

theorem extract_shape (p : EntropyPool) :
    p.extract_from_pool =
      (p.hash_func (pyBin (p.content : Int)),
       p.stir ((p.hash_func (pyBin (p.content : Int))).sum : Int)) := rfl

theorem gather_pool_shape (fuel : Nat) :
    ∀ (p : EntropyPool) (n bc : Nat) (res : List Nat),
      (gather fuel p n bc res).2 = { p with content := (gather fuel p n bc res).2.content } := by
  induction fuel with
  | zero => intro p n bc res; rfl
  | succ fuel ih =>
      intro p n bc res
      by_cases hbc : bc < n
      · by_cases hle : bc + (p.extract_from_pool.1).length ≤ n
        · have hrec := ih p.extract_from_pool.2 n (bc + (p.extract_from_pool.1).length)
            (res ++ p.extract_from_pool.1)
          simp only [gather, hbc, if_true, hle]
          rw [hrec, extract_shape, stir_shape]
        · simp only [gather, hbc, if_true, hle, if_false]
          rw [extract_shape, stir_shape]
      · simp only [gather, hbc, if_false]

theorem gather_length (fuel : Nat) :
    ∀ (p : EntropyPool) (n bc : Nat) (res : List Nat),
      (∀ s, 1 ≤ (p.hash_func s).length) → bc ≤ n → n - bc ≤ fuel →
      ((gather fuel p n bc res).1).length = res.length + (n - bc) := by
  induction fuel with
  | zero =>
      intro p n bc res _ hbc hfuel
      have : n = bc := by omega
      simp [gather, this]
  | succ fuel ih =>
      intro p n bc res hh hbc hfuel
      by_cases hlt : bc < n
      · have hd : 1 ≤ (p.extract_from_pool.1).length := by
          rw [extract_shape]; exact hh _
        by_cases hle : bc + (p.extract_from_pool.1).length ≤ n
        · have hh' : ∀ s, 1 ≤ ((p.extract_from_pool.2).hash_func s).length := by
            intro s
            rw [extract_shape, stir_shape]
            exact hh s
          have hrec := ih p.extract_from_pool.2 n (bc + (p.extract_from_pool.1).length)
            (res ++ p.extract_from_pool.1) hh' hle (by omega)
          simp only [gather, hlt, if_true, hle]
          rw [hrec]
          simp only [List.length_append]
          omega
        · simp only [gather, hlt, if_true, hle, if_false, List.length_append,
            List.length_take]
          omega
      · have : n = bc := by omega
        simp [gather, this]

end EntropyPool

/-- C2: with at least one credit, `get_random_bytes` returns exactly the
requested number of bytes for any request (digest-multiple or not) and
debits the counter exactly once; with insufficient credit it fails with
`NotEnoughEntropy` before extracting anything, returning no bytes and
leaving the content untouched (only the single debit is applied). -/
theorem C2_get_random_bytes_contract (p : EntropyPool) (nbytes : Nat)
    (hh : ∀ s, 1 ≤ (p.hash_func s).length) :
    (1 ≤ p.entropy_count →
      ∃ bs q, p.get_random_bytes nbytes = (q, Except.ok bs) ∧
        bs.length = nbytes ∧ q.entropy_count = p.entropy_count - 1) ∧
    (p.entropy_count < 1 →
      p.get_random_bytes nbytes
        = (({ p with entropy_count := p.entropy_count - 1 } : EntropyPool),
           Except.error Err.notEnoughEntropy)) := by
  constructor
  · intro hc
    have hnot : ¬ (p.entropy_count - 1 < 0) := by omega
    refine ⟨(EntropyPool.gather nbytes { p with entropy_count := p.entropy_count - 1 }
        nbytes 0 []).1,
      (EntropyPool.gather nbytes { p with entropy_count := p.entropy_count - 1 }
        nbytes 0 []).2, ?_, ?_, ?_⟩
    · simp [EntropyPool.get_random_bytes, EntropyPool.debit_entropy, hnot]
    · have hlen := EntropyPool.gather_length nbytes
        { p with entropy_count := p.entropy_count - 1 } nbytes 0 []
        (fun s => hh s) (Nat.zero_le _) (by omega)
      simpa using hlen
    · have hshape := EntropyPool.gather_pool_shape nbytes
        { p with entropy_count := p.entropy_count - 1 } nbytes 0 []
      rw [hshape]
  · intro hc
    have hlt : ({ p with entropy_count := p.entropy_count - 1 } : EntropyPool).entropy_count < 0 := by
      show p.entropy_count - 1 < 0
      omega
    simp [EntropyPool.get_random_bytes, EntropyPool.debit_entropy, hlt]

/-- A small concrete pool used to instantiate the general theorems: one
credit, eight bits, tap list `[0]`, and a constant one-byte digest. -/
def samplePool : EntropyPool :=
  { entropy_count := 1, nbits := 8, content := 0, stir_taps := [0],
    stir_ror_by := 1, hash_func := fun _ => [0] }

/-- Concrete instance of C2 on a one-credit pool with a one-byte digest. -/
theorem C2_get_random_bytes_contract_witness :
    (1 ≤ samplePool.entropy_count →
      ∃ bs q, samplePool.get_random_bytes 3 = (q, Except.ok bs) ∧
        bs.length = 3 ∧ q.entropy_count = samplePool.entropy_count - 1) ∧
    (samplePool.entropy_count < 1 →
      samplePool.get_random_bytes 3
        = (({ samplePool with entropy_count := samplePool.entropy_count - 1 } : EntropyPool),
           Except.error Err.notEnoughEntropy)) :=
  C2_get_random_bytes_contract samplePool 3 (fun _ => Nat.le_refl 1)

/-- C3: a successful credited `add_entropy` raises the counter by exactly
one, a successful uncredited call (including the feedback stir inside
`extract_from_pool`) leaves it unchanged, and a successful
`get_random_bytes` lowers it by exactly one whatever the requested
length. -/
theorem C3_credit_accounting (p : EntropyPool) (v : PyVal) (n : Nat) :
    (∀ q, p.add_entropy v true = (q, none) →
        q.entropy_count = p.entropy_count + 1) ∧
    (∀ q, p.add_entropy v false = (q, none) →
        q.entropy_count = p.entropy_count) ∧
    (p.extract_from_pool.2).entropy_count = p.entropy_count ∧
    (∀ q bs, p.get_random_bytes n = (q, Except.ok bs) →
        q.entropy_count = p.entropy_count - 1) := by
  refine ⟨?_, ?_, ?_, ?_⟩
  · intro q h₁
    rcases v with s | ds | i | ci
    · simp [EntropyPool.add_entropy] at h₁
      rw [← h₁]; rfl
    · simp [EntropyPool.add_entropy] at h₁
      rw [← h₁]; rfl
    · simp [EntropyPool.add_entropy] at h₁
      rw [← h₁]; rfl
    · rcases ci with _ | i
      · simp [EntropyPool.add_entropy] at h₁
      · simp [EntropyPool.add_entropy] at h₁
        rw [← h₁]; rfl
  · intro q h₂
    rcases v with s | ds | i | ci
    · simp [EntropyPool.add_entropy] at h₂
      rw [← h₂]; rfl
    · simp [EntropyPool.add_entropy] at h₂
      rw [← h₂]; rfl
    · simp [EntropyPool.add_entropy] at h₂
      rw [← h₂]; rfl
    · rcases ci with _ | i
      · simp [EntropyPool.add_entropy] at h₂
      · simp [EntropyPool.add_entropy] at h₂
        rw [← h₂]; rfl
  · rw [EntropyPool.extract_shape, EntropyPool.stir_shape]
  · intro q bs h₃
    by_cases hd : p.entropy_count - 1 < 0
    · simp [EntropyPool.get_random_bytes, EntropyPool.debit_entropy, hd] at h₃
    · simp [EntropyPool.get_random_bytes, EntropyPool.debit_entropy, hd] at h₃
      rw [← h₃.1, EntropyPool.gather_pool_shape]

/-- Concrete instance of C3 on the sample pool, with every inner
hypothesis discharged at a concrete successful call. -/
theorem C3_credit_accounting_witness :
    (samplePool.add_entropy (PyVal.int 1) true).1.entropy_count
        = samplePool.entropy_count + 1 ∧
    (samplePool.add_entropy (PyVal.int 1) false).1.entropy_count
        = samplePool.entropy_count ∧
    (samplePool.extract_from_pool.2).entropy_count = samplePool.entropy_count ∧
    (samplePool.get_random_bytes 0).1.entropy_count = samplePool.entropy_count - 1 :=
  ⟨(C3_credit_accounting samplePool (PyVal.int 1) 0).1
     (samplePool.add_entropy (PyVal.int 1) true).1 rfl,
   (C3_credit_accounting samplePool (PyVal.int 1) 0).2.1
     (samplePool.add_entropy (PyVal.int 1) false).1 rfl,
   (C3_credit_accounting samplePool (PyVal.int 1) 0).2.2.1,
   (C3_credit_accounting samplePool (PyVal.int 1) 0).2.2.2
     (samplePool.get_random_bytes 0).1 [] rfl⟩

/-- C8: `add_entropy` fails with the invalid-input error exactly when its
argument is neither textual nor coercible to an integer, leaving the pool
untouched in that case; textual input never fails and is stirred in as
the sum of its character code points, before any crediting. -/
theorem C8_add_entropy_invalid_input (p : EntropyPool) (v : PyVal) (c : Bool) (s : String) :
    ((p.add_entropy v c).2 = some Err.typeError ↔ v = PyVal.other none) ∧
    (p.add_entropy (PyVal.other none) c).1 = p ∧
    (p.add_entropy (PyVal.str s) c).2 = none ∧
    (p.add_entropy (PyVal.str s) c).1
      = (if c then (p.stir (EntropyPool.convert_str_to_int s : Int)).credit_entropy
         else p.stir (EntropyPool.convert_str_to_int s : Int)) := by
  refine ⟨?_, rfl, rfl, ?_⟩
  · rcases v with s' | ds | i | ci
    · simp [EntropyPool.add_entropy]
    · simp [EntropyPool.add_entropy]
    · simp [EntropyPool.add_entropy]
    · rcases ci with _ | i <;> simp [EntropyPool.add_entropy]
  · cases c <;> rfl

/-- Concrete instance of C8 on the sample pool with the string "ab". -/
theorem C8_add_entropy_invalid_input_witness :
    ((samplePool.add_entropy (PyVal.other none) true).2 = some Err.typeError
        ↔ PyVal.other none = PyVal.other none) ∧
    (samplePool.add_entropy (PyVal.other none) true).1 = samplePool ∧
    (samplePool.add_entropy (PyVal.str "ab") true).2 = none ∧
    (samplePool.add_entropy (PyVal.str "ab") true).1
      = (if true then
           (samplePool.stir (EntropyPool.convert_str_to_int "ab" : Int)).credit_entropy
         else samplePool.stir (EntropyPool.convert_str_to_int "ab" : Int)) :=
  C8_add_entropy_invalid_input samplePool (PyVal.other none) true "ab"

namespace EntropyPool

theorem tapContrib_lt (input : Int) (tap nbits : Nat) :
    tapContrib input tap nbits < 2 ^ nbits := by
  unfold tapContrib
  have hM : (0 : Int) < (2 : Int) ^ nbits := by positivity
  have h1 : 0 ≤ (input ^ tap) % ((2 : Int) ^ nbits) := Int.emod_nonneg _ (ne_of_gt hM)
  have h2 : (input ^ tap) % ((2 : Int) ^ nbits) < (2 : Int) ^ nbits :=
    Int.emod_lt_of_pos _ hM
  have hcast : ((2 ^ nbits : Nat) : Int) = (2 : Int) ^ nbits := by push_cast; ring
  omega

theorem stir_content_lt (p : EntropyPool) (i : Int) (hm : 0 < p.nbits) :
    (p.stir i).content < 2 ^ p.nbits := by
  have hfold : ∀ (l : List Nat) (acc : Nat), acc < 2 ^ p.nbits →
      l.foldl (fun acc t => acc ^^^ tapContrib i t p.nbits) acc < 2 ^ p.nbits := by
    intro l
    induction l with
    | nil => intro acc h; exact h
    | cons t l ih =>
        intro acc h
        exact ih _ (Nat.xor_lt_two_pow h (tapContrib_lt _ _ _))
  exact hfold _ _ (ror_lt _ _ _ hm)

theorem add_entropy_nbits (p : EntropyPool) (v : PyVal) (c : Bool) :
    ((p.add_entropy v c).1).nbits = p.nbits := by
  rcases v with s | ds | i | ci
  · cases c <;> rfl
  · cases c <;> rfl
  · cases c <;> rfl
  · rcases ci with _ | i
    · rfl
    · cases c <;> rfl

theorem add_entropy_content_inv (p : EntropyPool) (v : PyVal) (c : Bool)
    (hm : 0 < p.nbits) (hc : p.content < 2 ^ p.nbits) :
    ((p.add_entropy v c).1).content < 2 ^ p.nbits := by
  rcases v with s | ds | i | ci
  · cases c
    · exact stir_content_lt _ _ hm
    · exact stir_content_lt _ _ hm
  · cases c
    · exact stir_content_lt _ _ hm
    · exact stir_content_lt _ _ hm
  · cases c
    · exact stir_content_lt _ _ hm
    · exact stir_content_lt _ _ hm
  · rcases ci with _ | i
    · exact hc
    · cases c
      · exact stir_content_lt _ _ hm
      · exact stir_content_lt _ _ hm

theorem gather_content_inv (fuel : Nat) :
    ∀ (p : EntropyPool) (n bc : Nat) (res : List Nat), 0 < p.nbits →
      p.content < 2 ^ p.nbits →
      ((gather fuel p n bc res).2).content < 2 ^ p.nbits := by
  induction fuel with
  | zero => intro p n bc res hm hc; exact hc
  | succ fuel ih =>
      intro p n bc res hm hc
      by_cases hbc : bc < n
      · have h2 : (p.extract_from_pool.2).nbits = p.nbits := rfl
        have h1 : (p.extract_from_pool.2).content < 2 ^ p.nbits :=
          stir_content_lt _ _ hm
        by_cases hle : bc + (p.extract_from_pool.1).length ≤ n
        · simp only [gather, hbc, if_true, hle]
          exact ih p.extract_from_pool.2 n _ _ hm h1
        · simp only [gather, hbc, if_true, hle, if_false]
          exact h1
      · simp only [gather, hbc, if_false]
        exact hc

theorem get_random_bytes_nbits (p : EntropyPool) (n : Nat) :
    ((p.get_random_bytes n).1).nbits = p.nbits := by
  by_cases hd : p.entropy_count - 1 < 0
  · simp [get_random_bytes, debit_entropy, hd]
  · simp only [get_random_bytes, debit_entropy, hd, if_false]
    rw [gather_pool_shape]

theorem get_random_bytes_content_inv (p : EntropyPool) (n : Nat)
    (hm : 0 < p.nbits) (hc : p.content < 2 ^ p.nbits) :
    ((p.get_random_bytes n).1).content < 2 ^ p.nbits := by
  by_cases hd : p.entropy_count - 1 < 0
  · simp [get_random_bytes, debit_entropy, hd]
    exact hc
  · simp only [get_random_bytes, debit_entropy, hd, if_false]
    exact gather_content_inv n _ n 0 [] hm hc

end EntropyPool

theorem runOp_nbits (p : EntropyPool) (op : PoolOp) : (runOp p op).nbits = p.nbits := by
  cases op with
  | stir i => rfl
  | add_entropy v c => exact EntropyPool.add_entropy_nbits p v c
  | add_entropy_from_time_interval t => exact EntropyPool.add_entropy_nbits p _ _
  | extract_from_pool => rfl
  | get_random_bytes n => exact EntropyPool.get_random_bytes_nbits p n
  | credit_entropy => rfl
  | debit_entropy => rfl

theorem runOp_content_inv (p : EntropyPool) (op : PoolOp)
    (hm : 0 < p.nbits) (hc : p.content < 2 ^ p.nbits) :
    (runOp p op).content < 2 ^ p.nbits := by
  cases op with
  | stir i => exact EntropyPool.stir_content_lt p i hm
  | add_entropy v c => exact EntropyPool.add_entropy_content_inv p v c hm hc
  | add_entropy_from_time_interval t =>
      exact EntropyPool.add_entropy_content_inv p _ _ hm hc
  | extract_from_pool => exact EntropyPool.stir_content_lt p _ hm
  | get_random_bytes n => exact EntropyPool.get_random_bytes_content_inv p n hm hc
  | credit_entropy => exact hc
  | debit_entropy => exact hc

/-- C4: a pool constructed with width `N` satisfies `content < 2 ^ N`
right after construction and after any sequence of operations with any
inputs; every write is masked to the field width. -/
theorem C4_pool_width_invariant (nbits : Nat) (hash_func : String → List Nat)
    (stir_taps : List Nat) (stir_ror_by : Nat) (t : Int) (ops : List PoolOp)
    (hm : 0 < nbits) :
    (runOps (EntropyPool.mkPool nbits hash_func stir_taps stir_ror_by t) ops).content
      < 2 ^ nbits := by
  have main : ∀ (l : List PoolOp) (q : EntropyPool), q.nbits = nbits →
      q.content < 2 ^ nbits → (runOps q l).content < 2 ^ nbits := by
    intro l
    induction l with
    | nil => intro q hn hc; exact hc
    | cons op l ih =>
        intro q hn hc
        have hstep : (runOp q op).content < 2 ^ nbits := by
          have := runOp_content_inv q op (by rw [hn]; exact hm) (by rw [hn]; exact hc)
          rwa [hn] at this
        have hstepn : (runOp q op).nbits = nbits := by rw [runOp_nbits, hn]
        exact ih (runOp q op) hstepn hstep
  apply main
  · show ((EntropyPool.mkPool nbits hash_func stir_taps stir_ror_by t)).nbits = nbits
    exact EntropyPool.add_entropy_nbits _ _ _
  · exact EntropyPool.add_entropy_content_inv ({ entropy_count := 0, nbits := nbits, content := 0, stir_taps := stir_taps, stir_ror_by := stir_ror_by, hash_func := hash_func } : EntropyPool) (PyVal.int t) true hm (Nat.two_pow_pos nbits)

/-- Concrete instance of C4: an 8-bit pool, seed interval 5, then a stir,
an extraction and a byte request. -/
theorem C4_pool_width_invariant_witness :
    0 < 8 ∧
    (runOps (EntropyPool.mkPool 8 (fun _ => [0]) [2, 0] 3 5)
        [PoolOp.stir 9, PoolOp.extract_from_pool, PoolOp.get_random_bytes 2]).content
      < 2 ^ 8 :=
  ⟨by decide,
   C4_pool_width_invariant 8 (fun _ => [0]) [2, 0] 3 5
     [PoolOp.stir 9, PoolOp.extract_from_pool, PoolOp.get_random_bytes 2] (by decide)⟩

theorem natBinDigits_ne_nil (n : Nat) (hn : n ≠ 0) :
    EntropyPool.natBinDigits n ≠ [] := by
  rw [EntropyPool.natBinDigits]
  simp [hn]

theorem bitsVal_natBinDigits (n : Nat) :
    bitsVal (EntropyPool.natBinDigits n) = n := by
  induction n using Nat.strong_induction_on with
  | _ n ih =>
    rw [EntropyPool.natBinDigits]
    by_cases h : n = 0
    · simp [h, bitsVal]
    · simp only [h, dite_false]
      have hdiv : n / 2 < n := Nat.div_lt_self (Nat.pos_of_ne_zero h) Nat.one_lt_two
      have hv := ih (n / 2) hdiv
      unfold bitsVal at hv ⊢
      rw [List.foldl_append, hv]
      simp only [List.foldl_cons, List.foldl_nil]
      by_cases h2 : n % 2 = 1
      · simp only [h2, if_true, if_pos rfl]
        omega
      · have hne : ('0' : Char) ≠ '1' := by decide
        simp only [h2, if_false, if_neg hne]
        omega

theorem natBinDigits_head : ∀ n : Nat, 0 < n →
    (EntropyPool.natBinDigits n).head? = some '1' := by
  intro n
  induction n using Nat.strong_induction_on with
  | _ n ih =>
    intro hn
    rw [EntropyPool.natBinDigits]
    have h : ¬ (n = 0) := by omega
    simp only [h, dite_false]
    by_cases h1 : n / 2 = 0
    · have hn1 : n = 1 := by omega
      subst hn1
      rw [EntropyPool.natBinDigits]
      simp
    · have hd := ih (n / 2) (Nat.div_lt_self (by omega) Nat.one_lt_two)
        (Nat.pos_of_ne_zero h1)
      rw [List.head?_append, hd]
      rfl

/-- C7: hashing an integer hashes its binary rendering, a literal `0b`
prefix followed by the binary digits with no leading zero, whose value is
the integer itself (e.g. 5 becomes the text "0b101"); string input is
hashed as-is; in both cases the configured hash function's raw digest is
returned. -/
theorem C7_get_hash_normalization (p : EntropyPool) (n : Nat) (hn : 0 < n) :
    p.get_hash (HashInput.int (n : Int)) = p.hash_func (EntropyPool.pyBin (n : Int)) ∧
    EntropyPool.pyBin (n : Int) = "0b" ++ String.mk (EntropyPool.natBinDigits n) ∧
    (EntropyPool.natBinDigits n).head? = some '1' ∧
    bitsVal (EntropyPool.natBinDigits n) = n ∧
    (∀ s, p.get_hash (HashInput.str s) = p.hash_func s) ∧
    EntropyPool.pyBin (5 : Int) = "0b101" := by
  refine ⟨rfl, ?_, natBinDigits_head n hn, bitsVal_natBinDigits n, fun s => rfl, ?_⟩
  · rw [EntropyPool.pyBin]
    have h1 : ¬ ((n : Int) < 0) := by omega
    have h2 : ¬ ((n : Int) = 0) := by
      intro hzero
      omega
    rw [if_neg h1, if_neg h2, Int.natAbs_ofNat]
  · rw [EntropyPool.pyBin]
    norm_num
    rw [EntropyPool.natBinDigits]
    norm_num
    rw [EntropyPool.natBinDigits]
    norm_num
    rw [EntropyPool.natBinDigits]
    norm_num
    rw [EntropyPool.natBinDigits]
    norm_num
    rfl

/-- Concrete instance of C7 at the integer 5 on the sample pool. -/
theorem C7_get_hash_normalization_witness :
    0 < 5 ∧
    (samplePool.get_hash (HashInput.int (5 : Int))
        = samplePool.hash_func (EntropyPool.pyBin (5 : Int)) ∧
     EntropyPool.pyBin ((5 : Nat) : Int)
        = "0b" ++ String.mk (EntropyPool.natBinDigits 5) ∧
     (EntropyPool.natBinDigits 5).head? = some '1' ∧
     bitsVal (EntropyPool.natBinDigits 5) = 5 ∧
     (∀ s, samplePool.get_hash (HashInput.str s) = samplePool.hash_func s) ∧
     EntropyPool.pyBin (5 : Int) = "0b101") :=
  ⟨by decide, C7_get_hash_normalization samplePool 5 (by decide)⟩

theorem ite_xor_zmod (a d : Bool) :
    (if (a.xor d) then (1 : ZMod 2) else 0)
      = (if a then (1 : ZMod 2) else 0) + (if d then (1 : ZMod 2) else 0) := by
  cases a <;> cases d <;> decide

theorem sum_reindex_rot (F : Nat → ZMod 2) (s m : Nat) (hm : 0 < m) :
    (∑ i in Finset.range m, F ((i + s) % m)) = ∑ i in Finset.range m, F i := by
  have hsm : s % m < m := Nat.mod_lt _ hm
  have hdm := Nat.div_add_mod s m
  refine Finset.sum_nbij' (fun a => (a + s) % m) (fun b => (b + (m - s % m)) % m)
    ?_ ?_ ?_ ?_ ?_
  · intro a ha
    exact Finset.mem_range.mpr (Nat.mod_lt _ hm)
  · intro b hb
    exact Finset.mem_range.mpr (Nat.mod_lt _ hm)
  · intro a ha
    rw [Finset.mem_range] at ha
    show ((a + s) % m + (m - s % m)) % m = a
    rw [Nat.mod_add_mod]
    have hmul : m * (s / m + 1) = m * (s / m) + m := by ring
    have he : a + s + (m - s % m) = a + m * (s / m + 1) := by omega
    rw [he, Nat.add_mul_mod_self_left, Nat.mod_eq_of_lt ha]
  · intro b hb
    rw [Finset.mem_range] at hb
    show ((b + (m - s % m)) % m + s) % m = b
    rw [Nat.mod_add_mod]
    have hmul : m * (s / m + 1) = m * (s / m) + m := by ring
    have he : b + (m - s % m) + s = b + m * (s / m + 1) := by omega
    rw [he, Nat.add_mul_mod_self_left, Nat.mod_eq_of_lt hb]
  · intro a ha
    rfl

theorem rotxor_ne (c r m : Nat) (hm : 0 < m) (hc : c < 2 ^ m) :
    EntropyPool.ror c r m ^^^ 1 ≠ c := by
  intro heq
  have hbit : ∀ i, i < m →
      c.testBit i = ((c.testBit ((i + r % m) % m)).xor (decide (i = 0))) := by
    intro i hi
    have h1 : c.testBit i = (EntropyPool.ror c r m ^^^ 1).testBit i := by rw [heq]
    rw [Nat.testBit_xor, EntropyPool.ror_testBit _ _ _ _ hm hi] at h1
    have h2 : Nat.testBit 1 i = decide (i = 0) := by
      by_cases h0 : i = 0
      · subst h0; decide
      · have hlt : (1 : Nat) < 2 ^ i := Nat.one_lt_two_pow_iff.mpr h0
        rw [Nat.testBit_lt_two_pow hlt]
        simp [h0]
    rw [h2] at h1
    exact h1
  have hsum : (∑ i in Finset.range m, (if c.testBit i then (1 : ZMod 2) else 0))
      = (∑ i in Finset.range m,
          (if c.testBit ((i + r % m) % m) then (1 : ZMod 2) else 0))
        + ∑ i in Finset.range m, (if i = 0 then (1 : ZMod 2) else 0) := by
    rw [← Finset.sum_add_distrib]
    apply Finset.sum_congr rfl
    intro i hi
    rw [Finset.mem_range] at hi
    rw [hbit i hi, ite_xor_zmod]
    congr 1
    by_cases h0 : i = 0 <;> simp [h0]
  have hre : (∑ i in Finset.range m,
        (if c.testBit ((i + r % m) % m) then (1 : ZMod 2) else 0))
      = ∑ i in Finset.range m, (if c.testBit i then (1 : ZMod 2) else 0) :=
    sum_reindex_rot (fun i => if c.testBit i then (1 : ZMod 2) else 0) (r % m) m hm
  have hone : (∑ i in Finset.range m, (if i = 0 then (1 : ZMod 2) else 0)) = 1 := by
    rw [Finset.sum_ite_eq' (Finset.range m) 0 (fun _ => (1 : ZMod 2))]
    simp [Finset.mem_range, hm]
  rw [hre, hone] at hsum
  rw [self_eq_add_right] at hsum
  exact absurd hsum (by decide)

/-- C10: with the default tap list, stirring with input 0 rotates the
content and XORs in exactly 1 (only the tap exponent 0 contributes, since
the model's integer power gives 1 at exponent 0 and 0 at the positive
exponents), so the pool content always changes; `add_entropy` of the
integer 0 and of the empty string have exactly this effect. -/
theorem C10_zero_input_stir (p : EntropyPool) (c : Bool)
    (htaps : p.stir_taps = [128, 104, 76, 51, 25, 1, 0])
    (hm : 0 < p.nbits) (hc : p.content < 2 ^ p.nbits) :
    (p.stir 0).content = EntropyPool.ror p.content p.stir_ror_by p.nbits ^^^ 1 ∧
    (p.stir 0).content ≠ p.content ∧
    ((p.add_entropy (PyVal.int 0) c).1).content = (p.stir 0).content ∧
    ((p.add_entropy (PyVal.str "") c).1).content = (p.stir 0).content := by
  have hz : ∀ t : Nat, t ≠ 0 → EntropyPool.tapContrib 0 t p.nbits = 0 := by
    intro t ht
    unfold EntropyPool.tapContrib
    rw [zero_pow ht]
    simp
  have h2m : (1 : Int) < 2 ^ p.nbits := by
    calc (1 : Int) < 2 ^ 1 := by norm_num
    _ ≤ 2 ^ p.nbits := pow_le_pow_right (by norm_num) hm
  have h1 : EntropyPool.tapContrib 0 0 p.nbits = 1 := by
    unfold EntropyPool.tapContrib
    rw [pow_zero, Int.emod_eq_of_lt (by norm_num) h2m]
    rfl
  have heq : (p.stir 0).content
      = EntropyPool.ror p.content p.stir_ror_by p.nbits ^^^ 1 := by
    show p.stir_taps.foldl (fun acc tap => acc ^^^ EntropyPool.tapContrib 0 tap p.nbits)
        (EntropyPool.ror p.content p.stir_ror_by p.nbits)
      = EntropyPool.ror p.content p.stir_ror_by p.nbits ^^^ 1
    rw [htaps]
    simp only [List.foldl_cons, List.foldl_nil]
    rw [hz 128 (by decide), hz 104 (by decide), hz 76 (by decide), hz 51 (by decide),
      hz 25 (by decide), hz 1 (by decide), h1]
    simp
  refine ⟨heq, ?_, ?_, ?_⟩
  · rw [heq]
    exact rotxor_ne p.content p.stir_ror_by p.nbits hm hc
  · cases c <;> rfl
  · cases c <;> rfl

/-- A pool with the source's default tap list and rotation, used to
instantiate C10. -/
def defaultTapsPool : EntropyPool :=
  { entropy_count := 1, nbits := 8, content := 3,
    stir_taps := [128, 104, 76, 51, 25, 1, 0], stir_ror_by := 7,
    hash_func := fun _ => [0] }

/-- Concrete instance of C10 on an 8-bit pool with the default taps. -/
theorem C10_zero_input_stir_witness :
    defaultTapsPool.stir_taps = [128, 104, 76, 51, 25, 1, 0] ∧
    0 < defaultTapsPool.nbits ∧
    defaultTapsPool.content < 2 ^ defaultTapsPool.nbits ∧
    ((defaultTapsPool.stir 0).content
        = EntropyPool.ror defaultTapsPool.content defaultTapsPool.stir_ror_by
            defaultTapsPool.nbits ^^^ 1 ∧
     (defaultTapsPool.stir 0).content ≠ defaultTapsPool.content ∧
     ((defaultTapsPool.add_entropy (PyVal.int 0) true).1).content
        = (defaultTapsPool.stir 0).content ∧
     ((defaultTapsPool.add_entropy (PyVal.str "") true).1).content
        = (defaultTapsPool.stir 0).content) :=
  ⟨rfl, by decide, by decide,
   C10_zero_input_stir defaultTapsPool true rfl (by decide) (by decide)⟩

/-- An exhausted pool: zero entropy credits. -/
def drainedPool : EntropyPool :=
  { entropy_count := 0, nbits := 8, content := 0, stir_taps := [0],
    stir_ror_by := 1, hash_func := fun _ => [0] }

/-- C1 (behaviour the code actually has, contradicting the claim): on a
pool with `entropy_count = 0`, `get_random_bytes` raises
`NotEnoughEntropy` but leaves the counter at `-1` (the decrement is not
rolled back), so after one successful credited `add_entropy` the counter
is only back to `0` and the retried `get_random_bytes` raises
`NotEnoughEntropy` again instead of succeeding. -/
theorem C1_failed_debit_not_recoverable :
    (drainedPool.get_random_bytes 1).2 = Except.error Err.notEnoughEntropy ∧
    ((drainedPool.get_random_bytes 1).1).entropy_count = -1 ∧
    (((drainedPool.get_random_bytes 1).1.add_entropy (PyVal.int 1) true).2 = none ∧
     ((drainedPool.get_random_bytes 1).1.add_entropy (PyVal.int 1) true).1.entropy_count = 0) ∧
    ((((drainedPool.get_random_bytes 1).1.add_entropy (PyVal.int 1) true).1.get_random_bytes 1).2
      = Except.error Err.notEnoughEntropy) :=
  ⟨rfl, rfl, ⟨rfl, rfl⟩, rfl⟩
